import Mathlib

/-! Verification development for the route53 DNS reconciliation module
(source: cloud/amazon/route53.py).  The definitions below are a shallow
embedding of the record-level reconciliation path of the module: the
retrying commit loop, the hosted-zone directory, the record-set scan of
main, and the change-batch construction.  Network transport, credential
handling and process exit conventions are external collaborators; the
provider is represented by the data it returns (the zone listing, the
record-set listing, and the per-attempt results of a commit). -/

namespace Route53

/-! String utilities mirroring the Python string operations the module
uses: str.replace for fixed patterns, str.split on a comma,
str.join with a comma, int() on decimal TTL strings, and sorted(). -/

/-- Python str.replace for the fixed four-character pattern backslash 0 5 2
(written r backslash-052 in the source), replacing every occurrence with a
star, scanning left to right without overlap.
Source: decoded_name = rset.name.replace(r backslash-052, star). -/
def replace052 : List Char → List Char
  | '\\' :: '0' :: '5' :: '2' :: rest => '*' :: replace052 rest
  | c :: rest => c :: replace052 rest
  | [] => []

/-- Python str.replace for the fixed four-character pattern backslash 1 0 0,
replacing every occurrence with an at sign.
Source: decoded_name = decoded_name.replace(r backslash-100, at-sign). -/
def replace100 : List Char → List Char
  | '\\' :: '1' :: '0' :: '0' :: rest => '@' :: replace100 rest
  | c :: rest => c :: replace100 rest
  | [] => []

/-- The name decoding main applies to every record set returned by the
provider: first all octal escapes of star, then all octal escapes of
at-sign, exactly as the two successive replace calls in the source. -/
def decodeName (s : String) : String :=
  String.mk (replace100 (replace052 s.toList))

/-- Helper for splitComma: Python str.split(comma) accumulator loop. -/
def splitCommaAux : List Char → List Char → List String
  | [], acc => [String.mk acc.reverse]
  | c :: cs, acc =>
    if c = ',' then String.mk acc.reverse :: splitCommaAux cs []
    else splitCommaAux cs (c :: acc)

/-- Python value_in.split(comma): splits on every comma; the empty string
splits to a singleton list holding the empty string, as in Python. -/
def splitComma (s : String) : List String :=
  splitCommaAux s.toList []

/-- Python comma.join(l): concatenates the strings of l with a comma
between consecutive elements. -/
def joinComma : List String → String
  | [] => ""
  | [s] => s
  | s :: rest => s ++ "," ++ joinComma rest

/-- Lexicographic at-most comparison of character lists by code point,
the order Python uses to compare the (ASCII) record value strings. -/
def strLeb : List Char → List Char → Bool
  | [], _ => true
  | _ :: _, [] => false
  | a :: as, b :: bs => if a = b then strLeb as bs else decide (a.toNat < b.toNat)

/-- The string comparison relation used by sorted() in the module. -/
def pyStrLe (a b : String) : Prop :=
  strLeb a.toList b.toList = true

instance : DecidableRel pyStrLe :=
  fun a b => inferInstanceAs (Decidable (strLeb a.toList b.toList = true))

/-- Python sorted() on a list of strings: the unique ascending reordering
under the lexicographic string order. -/
def sortStrings (l : List String) : List String :=
  l.insertionSort pyStrLe

/-- Python int() on the decimal TTL strings the provider returns (the
module evaluates int(record[ttl-key])).  On a non-numeric string Python
raises; that case is modelled as none, and the module only ever compares
the parse result against the desired integer TTL. -/
def parseTTL (s : String) : Option Nat :=
  if s.toList ≠ [] ∧ s.toList.all Char.isDigit then
    some (s.toList.foldl (fun n c => n * 10 + (c.toNat - '0'.toNat)) 0)
  else none

/-! The retrying committer (function commit of the source).

    def commit(changes, retry_interval):
        retry = 10
        while True:
            try:
                retry -= 1
                return changes.commit()
            except DNSServerError as e:
                code = extracted error code
                if code is not PriorRequestNotComplete or retry is negative:
                    raise e
                sleep(retry_interval)

The provider is modelled as a function from the attempt index (0-based)
to the result of that submission attempt: ok on success, or the error
code carried in the DNSServerError body.  The XML extraction of the code
from the body is transport plumbing and is modelled by the attempt result
carrying the code directly. -/

/-- Result of the commit loop: on success or on a raised error it records
the total number of submission attempts made and the number of backoff
sleeps performed. -/
inductive CommitResult where
  | success (attempts : Nat) (sleeps : Nat)
  | raised (code : String) (attempts : Nat) (sleeps : Nat)
  deriving DecidableEq, Repr

/-- The while-True loop of commit.  The counter r holds the number of
transient retries still allowed (the source variable retry holds 10 - i - 1
after the decrement at iteration i, and the raise condition retry lt 0 is
exactly r = 0 here, with r = 10 - i); i is the 0-based attempt index, so an
exit at attempt index i reports i+1 attempts and i sleeps. -/
def commitLoop (results : Nat → Except String Unit) : Nat → Nat → CommitResult
  | r, i =>
    match results i with
    | Except.ok _ => CommitResult.success (i + 1) i
    | Except.error code =>
      if code ≠ "PriorRequestNotComplete" then CommitResult.raised code (i + 1) i
      else
        match r with
        | 0 => CommitResult.raised code (i + 1) i
        | r' + 1 => commitLoop results r' (i + 1)

/-- commit(changes, retry_interval): the loop starts with retry = 10 at
attempt index 0. -/
def commitR53 (results : Nat → Except String Unit) : CommitResult :=
  commitLoop results 10 0

/-- Number of submission attempts a commit outcome reports. -/
def commitAttempts : CommitResult → Nat
  | CommitResult.success a _ => a
  | CommitResult.raised _ a _ => a

/-! The hosted-zone directory.  Source:

    zones = dict()
    results = conn.get_all_hosted_zones()
    for r53zone in results[...][HostedZones]:
        zone_id = r53zone[Id].replace(str-hostedzone-prefix, empty)
        zones[r53zone[Name]] = zone_id
-/

/-- Does the pattern occur at the head of the character list. -/
def listStartsWith : List Char → List Char → Bool
  | [], _ => true
  | _ :: _, [] => false
  | p :: ps, c :: cs => p = c && listStartsWith ps cs

/-- Fuel-driven worker for pyReplace; one unit of fuel per character of the
input suffices because every step consumes at least one character. -/
def replaceAllAux (pat rep : List Char) : Nat → List Char → List Char
  | _, [] => []
  | 0, s => s
  | fuel + 1, c :: cs =>
    if listStartsWith pat (c :: cs) ∧ pat ≠ [] then
      rep ++ replaceAllAux pat rep fuel (List.drop (pat.length - 1) cs)
    else
      c :: replaceAllAux pat rep fuel cs

/-- Python str.replace(pat, rep) for a nonempty pattern: replaces every
occurrence, scanning left to right without overlap and without rescanning
the replacement text. -/
def pyReplace (s pat rep : String) : String :=
  String.mk (replaceAllAux pat.toList rep.toList s.toList.length s.toList)

/-- One entry of the hosted-zone listing the provider returns. -/
structure HostedZone where
  id : String
  name : String
  deriving DecidableEq, Repr

/-- One iteration of the zone loop: a Python dict assignment
zones[name] = id with the id stripped of the hostedzone path prefix. -/
def zoneUpdate (zones : String → Option String) (z : HostedZone) : String → Option String :=
  fun k => if k = z.name then some (pyReplace z.id "/hostedzone/" "") else zones k

/-- The zones dict after the loop over the whole listing, as a lookup
function from zone name to provider zone id. -/
def zoneDirectory (listing : List HostedZone) : String → Option String :=
  listing.foldl zoneUpdate (fun _ => none)

/-! The record-level reconciliation path of main. -/

/-- The state parameter: list, present or absent. -/
inductive State where
  | slist
  | present
  | absent
  deriving DecidableEq, Repr

/-- The value parameter as Python sees it: a string, a list of strings, or
None (the module dispatches on type(value_in)). -/
inductive PyValue where
  | pstr (s : String)
  | plist (l : List String)
  | pnone
  deriving DecidableEq, Repr

/-- Python truthiness of the value parameter (the check not value_in). -/
def pyFalsy : PyValue → Bool
  | PyValue.pstr s => s = ""
  | PyValue.plist l => l = []
  | PyValue.pnone => true

/-- Python truthiness of the overwrite parameter, an optional boolean; None
and False are both falsy (the check not module.params of overwrite). -/
def pyTruthy : Option Bool → Bool
  | some true => true
  | _ => false

/-- The normalized desired value list.  Source:

    value_list = ()
    if type(value_in) is str:
        if value_in:
            value_list = sorted(value_in.split(comma))
    elif type(value_in) is list:
        value_list = sorted(value_in)
-/
def valueList : PyValue → List String
  | PyValue.pstr s => if s ≠ "" then sortStrings (splitComma s) else []
  | PyValue.plist l => sortStrings l
  | PyValue.pnone => []

/-- Value normalization applied to a single comma-delimited string input. -/
def normalizeValuesStr (s : String) : List String :=
  valueList (PyValue.pstr s)

/-- Value normalization applied to an explicit list input. -/
def normalizeValuesList (l : List String) : List String :=
  valueList (PyValue.plist l)

/-- Trailing-dot normalization of the record name.  Source:

    if record_in[-1:] != dot:
        record_in += dot
-/
def fqdn (s : String) : String :=
  if s.toList.getLast? = some '.' then s else s ++ "."

/-- One record set of the zone listing the provider returns: name, type and
TTL as strings (the TTL arrives as text), plus the resource records. -/
structure RSet where
  name : String
  rtype : String
  ttl : String
  resource_records : List String
  deriving DecidableEq, Repr

/-- The record dict main fills for a matched record set: zone, type,
decoded name, raw TTL string, comma-joined sorted values, sorted values. -/
structure RecInfo where
  zone : String
  rtype : String
  record : String
  ttl : String
  value : String
  values : List String
  deriving DecidableEq, Repr

/-- The record dict entries assigned for a matching record set rset.
Source: record[zone] = zone_in; record[type] = rset.type;
record[record] = decoded_name; record[ttl] = rset.ttl;
record[value] = comma-join of sorted(rset.resource_records);
record[values] = sorted(rset.resource_records). -/
def mkRecInfo (zone_in : String) (rset : RSet) : RecInfo :=
  { zone := zone_in
    rtype := rset.rtype
    record := decodeName rset.name
    ttl := rset.ttl
    value := joinComma (sortStrings rset.resource_records)
    values := sortStrings rset.resource_records }

/-- Result of the scan over the record sets: either the loop body exited
the process early with changed=false (the fully-matching present case), or
the loop finished with the record dict of the last matching set, if any. -/
inductive ScanResult where
  | earlyExit
  | finished (rec : Option RecInfo)
  deriving DecidableEq, Repr

/-- The for-loop of main over conn.get_all_rrsets.  Source:

    for rset in sets:
        decoded_name = decoded rset.name
        if rset.type == type_in and decoded_name == record_in:
            found_record = True
            record[...] = ...
            if value_list == sorted(rset.resource_records)
               and int(record[ttl]) == ttl_in and state_in == present:
                module.exit_json(changed=False)

The accumulator rec plays the role of the pair (found_record, record):
found_record is rec.isSome. -/
def scanLoop (zone_in record_in type_in : String) (value_list : List String)
    (ttl_in : Nat) (state_in : State) : List RSet → Option RecInfo → ScanResult
  | [], rec => ScanResult.finished rec
  | rset :: rest, rec =>
    if rset.rtype = type_in ∧ decodeName rset.name = record_in then
      if value_list = sortStrings rset.resource_records ∧
          parseTTL rset.ttl = some ttl_in ∧ state_in = State.present then
        ScanResult.earlyExit
      else
        scanLoop zone_in record_in type_in value_list ttl_in state_in rest
          (some (mkRecInfo zone_in rset))
    else
      scanLoop zone_in record_in type_in value_list ttl_in state_in rest rec

/-- One change entry of a change batch, as built by
changes.add_change(command, record_in, type_in, ttl) followed by
change.add_value(v) for each value. -/
inductive ChangeOp where
  | create
  | delete
  deriving DecidableEq, Repr

structure Change where
  op : ChangeOp
  name : String
  rtype : String
  ttl : String
  values : List String
  deriving DecidableEq, Repr

/-- How the record branch of main ends: an exit with changed=false, the
list-state exit reporting the matched set, a fatal failure with a message,
or the submission of the built change batch (changed=true on success). -/
inductive Outcome where
  | noChange
  | listSet (rec : Option RecInfo)
  | failMsg (msg : String)
  | commitChanges (batch : List Change)
  deriving DecidableEq, Repr

/-- The conflict message of main for an existing record and no overwrite. -/
def conflictMsg : String :=
  "Record already exists with different value. Set \x27overwrite\x27 to replace it"

/-- The tail of the record branch of main after the scan loop: the
list-state exit, the absent-with-no-match exit, the overwrite check with
its delete of the existing record, and the create or delete of the desired
record.  Source:

    if state_in == list: module.exit_json(changed=False, set=record)
    if state_in == absent and not found_record: module.exit_json(changed=False)
    changes = ResourceRecordSets(conn, zone_id)
    if state_in == present and found_record:
        if not module.params[overwrite]: module.fail_json(conflict message)
        else: change = changes.add_change(DELETE, record_in, type_in, record[ttl])
        for v in record[values]: change.add_value(v)
    if state_in == present or state_in == absent:
        command = CREATE if present else DELETE
        change = changes.add_change(command, record_in, type_in, ttl_in)
        for v in value_list: change.add_value(v)
    commit(changes, retry_interval)
-/
def buildOutcome (state_in : State) (record_in type_in : String) (ttl_in : Nat)
    (value_list : List String) (overwrite : Option Bool) : ScanResult → Outcome
  | ScanResult.earlyExit => Outcome.noChange
  | ScanResult.finished rec =>
    if state_in = State.slist then Outcome.listSet rec
    else if state_in = State.absent ∧ rec = none then Outcome.noChange
    else
      match state_in, rec with
      | State.present, some r =>
        if pyTruthy overwrite = false then
          Outcome.failMsg conflictMsg
        else
          Outcome.commitChanges
            [ { op := ChangeOp.delete, name := record_in, rtype := type_in,
                ttl := r.ttl, values := r.values },
              { op := ChangeOp.create, name := record_in, rtype := type_in,
                ttl := toString ttl_in, values := value_list } ]
      | State.present, none =>
        Outcome.commitChanges
          [ { op := ChangeOp.create, name := record_in, rtype := type_in,
              ttl := toString ttl_in, values := value_list } ]
      | _, _ =>
        Outcome.commitChanges
          [ { op := ChangeOp.delete, name := record_in, rtype := type_in,
              ttl := toString ttl_in, values := value_list } ]

/-- The record branch of main (the body under if record_in:) given the
record-set listing the provider returns for the zone.  The zone lookup is
modelled separately by zoneDirectory; the validations, the normalization
of the record name and values, the scan loop and the change-batch
construction are in source order. -/
def recordOp (state_in : State) (zone_in : String) (ttl_in : Nat) (record_raw : String)
    (type_in : Option String) (value_in : PyValue) (overwrite : Option Bool)
    (sets : List RSet) : Outcome :=
  let value_list := valueList value_in
  let record_in := fqdn record_raw
  match type_in with
  | none =>
    Outcome.failMsg "parameter \x27type\x27 required when \x27record\x27 is provided"
  | some ty =>
    if (state_in = State.present ∨ state_in = State.absent) ∧ pyFalsy value_in = true then
      Outcome.failMsg
        "parameter \x27value\x27 required for present/absent when \x27record\x27 is provided"
    else
      buildOutcome state_in record_in ty ttl_in value_list overwrite
        (scanLoop zone_in record_in ty value_list ttl_in state_in sets none)

/-! Order properties of the string comparison, so that sorted() is the
unique ascending reordering. -/

theorem charToNat_inj {a b : Char} (h : a.toNat = b.toNat) : a = b := by
  apply Char.eq_of_val_eq
  apply UInt32.eq_of_toBitVec_eq
  apply BitVec.eq_of_toNat_eq
  exact h

theorem strLeb_total (as bs : List Char) : strLeb as bs = true ∨ strLeb bs as = true := by
  induction as generalizing bs with
  | nil => left; rfl
  | cons a as ih =>
    cases bs with
    | nil => right; rfl
    | cons b bs =>
      by_cases hab : a = b
      · subst hab
        simp only [strLeb, if_pos rfl]
        exact ih bs
      · have hba : b ≠ a := fun e => hab e.symm
        have hne : a.toNat ≠ b.toNat := fun e => hab (charToNat_inj e)
        simp only [strLeb, if_neg hab, if_neg hba, decide_eq_true_eq]
        omega

theorem strLeb_trans (as bs cs : List Char) (h1 : strLeb as bs = true)
    (h2 : strLeb bs cs = true) : strLeb as cs = true := by
  induction as generalizing bs cs with
  | nil => rfl
  | cons a as ih =>
    cases bs with
    | nil => simp [strLeb] at h1
    | cons b bs =>
      cases cs with
      | nil => simp [strLeb] at h2
      | cons c cs =>
        by_cases hab : a = b
        · subst hab
          by_cases hac : a = c
          · subst hac
            simp only [strLeb, if_pos rfl] at h1 h2 ⊢
            exact ih bs cs h1 h2
          · simp only [strLeb, if_pos rfl] at h1
            simp only [strLeb, if_neg hac] at h2 ⊢
            exact h2
        · by_cases hbc : b = c
          · subst hbc
            simp only [strLeb, if_neg hab] at h1 ⊢
            exact h1
          · simp only [strLeb, if_neg hab, decide_eq_true_eq] at h1
            simp only [strLeb, if_neg hbc, decide_eq_true_eq] at h2
            by_cases hac : a = c
            · subst hac; exfalso; omega
            · simp only [strLeb, if_neg hac, decide_eq_true_eq]; omega

theorem strLeb_antisymm (as bs : List Char) (h1 : strLeb as bs = true)
    (h2 : strLeb bs as = true) : as = bs := by
  induction as generalizing bs with
  | nil =>
    cases bs with
    | nil => rfl
    | cons b bs => simp [strLeb] at h2
  | cons a as ih =>
    cases bs with
    | nil => simp [strLeb] at h1
    | cons b bs =>
      by_cases hab : a = b
      · subst hab
        simp only [strLeb, if_pos rfl] at h1 h2
        rw [ih bs h1 h2]
      · have hba : b ≠ a := fun e => hab e.symm
        simp only [strLeb, if_neg hab, decide_eq_true_eq] at h1
        simp only [strLeb, if_neg hba, decide_eq_true_eq] at h2
        exfalso; omega

theorem string_toList_append (a b : String) : (a ++ b).toList = a.toList ++ b.toList := by
  cases a; cases b; rfl

theorem string_mk_toList (s : String) : String.mk s.toList = s := rfl

theorem string_toList_inj {a b : String} (h : a.toList = b.toList) : a = b := by
  have h2 := congrArg String.mk h
  rwa [string_mk_toList, string_mk_toList] at h2

instance : IsTotal String pyStrLe :=
  ⟨fun a b => strLeb_total a.toList b.toList⟩

instance : IsTrans String pyStrLe :=
  ⟨fun a b c => strLeb_trans a.toList b.toList c.toList⟩

instance : IsAntisymm String pyStrLe :=
  ⟨fun _ _ h1 h2 => string_toList_inj (strLeb_antisymm _ _ h1 h2)⟩

theorem sortStrings_sorted (l : List String) : List.Sorted pyStrLe (sortStrings l) :=
  List.sorted_insertionSort pyStrLe l

theorem sortStrings_perm (l : List String) : (sortStrings l).Perm l :=
  List.perm_insertionSort pyStrLe l

theorem sortStrings_congr_perm (l₁ l₂ : List String) (h : l₁.Perm l₂) :
    sortStrings l₁ = sortStrings l₂ :=
  List.eq_of_perm_of_sorted
    ((sortStrings_perm l₁).trans (h.trans (sortStrings_perm l₂).symm))
    (sortStrings_sorted l₁) (sortStrings_sorted l₂)

/-! Splitting a comma-join recovers the original list when the joined
values are comma-free; groundwork for the value-normalization claim. -/

theorem toList_comma : (",").toList = [','] := rfl

theorem toList_empty : ("").toList = [] := rfl

theorem splitCommaAux_noComma (cs : List Char) (h : ',' ∉ cs) :
    ∀ acc, splitCommaAux cs acc = [String.mk (acc.reverse ++ cs)] := by
  induction cs with
  | nil => intro acc; simp [splitCommaAux]
  | cons c cs ih =>
    intro acc
    have hc : ¬ (c = ',') := fun e => h (by rw [e]; exact List.mem_cons_self _ _)
    have h2 : ',' ∉ cs := fun m => h (List.mem_cons_of_mem _ m)
    simp only [splitCommaAux, if_neg hc]
    rw [ih h2 (c :: acc)]
    simp [List.reverse_cons, List.append_assoc]

theorem splitCommaAux_comma (cs rest : List Char) (h : ',' ∉ cs) :
    ∀ acc, splitCommaAux (cs ++ ',' :: rest) acc
      = String.mk (acc.reverse ++ cs) :: splitCommaAux rest [] := by
  induction cs with
  | nil => intro acc; simp [splitCommaAux]
  | cons c cs ih =>
    intro acc
    have hc : ¬ (c = ',') := fun e => h (by rw [e]; exact List.mem_cons_self _ _)
    have h2 : ',' ∉ cs := fun m => h (List.mem_cons_of_mem _ m)
    simp only [List.cons_append, List.append_eq, splitCommaAux, if_neg hc]
    rw [ih h2 (c :: acc)]
    simp [List.reverse_cons, List.append_assoc]

theorem joinComma_cons_cons (v w : String) (rest : List String) :
    joinComma (v :: w :: rest) = v ++ "," ++ joinComma (w :: rest) := rfl

theorem splitComma_joinComma (l : List String) (hne : l ≠ [])
    (h : ∀ v ∈ l, ',' ∉ v.toList) : splitComma (joinComma l) = l := by
  induction l with
  | nil => exact absurd rfl hne
  | cons v rest ih =>
    cases rest with
    | nil =>
      have hv : ',' ∉ v.toList := h v (List.mem_cons_self _ _)
      show splitCommaAux v.toList [] = [v]
      rw [splitCommaAux_noComma v.toList hv []]
      simp [string_mk_toList]
    | cons w rest2 =>
      have hv : ',' ∉ v.toList := h v (List.mem_cons_self _ _)
      have hrest : ∀ x ∈ w :: rest2, ',' ∉ x.toList :=
        fun x m => h x (List.mem_cons_of_mem _ m)
      unfold splitComma
      rw [joinComma_cons_cons]
      have hdata : (v ++ "," ++ joinComma (w :: rest2)).toList
          = v.toList ++ ',' :: (joinComma (w :: rest2)).toList := by
        rw [string_toList_append, string_toList_append, toList_comma, List.append_assoc]
        rfl
      rw [hdata, splitCommaAux_comma _ _ hv []]
      have htail : splitCommaAux (joinComma (w :: rest2)).toList [] = w :: rest2 :=
        ih (List.cons_ne_nil _ _) hrest
      rw [htail]
      simp [string_mk_toList]

theorem joinComma_ne_empty (l : List String) (hne : l ≠ []) (h : ∀ v ∈ l, v ≠ "") :
    joinComma l ≠ "" := by
  cases l with
  | nil => exact absurd rfl hne
  | cons v rest =>
    cases rest with
    | nil => exact h v (List.mem_cons_self _ _)
    | cons w rest2 =>
      intro e
      have h2 := congrArg String.toList e
      rw [joinComma_cons_cons, string_toList_append, string_toList_append,
        toList_comma, toList_empty] at h2
      simp at h2

/-- C8 (corrected).  Value normalization is order-independent and
deterministic for every multiset of nonempty, comma-free value strings:
normalizing the comma-delimited join of the values equals normalizing an
explicit list of the same values in any order, and the result is the
ascending sorted sequence under the string order.  (The claim as stated
over every multiset of value strings fails when a value is the empty
string, see the counterexample; comma-free is presupposed by the values
being representable as one comma-delimited string.) -/
theorem normalize_order_independent_sorted (l₁ l₂ : List String) (hperm : l₁.Perm l₂)
    (hv : ∀ v ∈ l₁, v ≠ "" ∧ ',' ∉ v.toList) :
    normalizeValuesStr (joinComma l₁) = normalizeValuesList l₂ ∧
      List.Sorted pyStrLe (normalizeValuesList l₂) := by
  constructor
  · by_cases hne : l₁ = []
    · subst hne
      have h2 : l₂ = [] := hperm.symm.eq_nil
      subst h2
      decide
    · have hjn : joinComma l₁ ≠ "" := joinComma_ne_empty l₁ hne (fun v m => (hv v m).1)
      simp only [normalizeValuesStr, normalizeValuesList, valueList]
      rw [if_pos hjn, splitComma_joinComma l₁ hne (fun v m => (hv v m).2)]
      exact sortStrings_congr_perm _ _ hperm
  · exact sortStrings_sorted l₂

/-- C8: the claim as stated, quantified over every multiset of value
strings, is false: for the multiset holding one empty value string,
normalizing the comma-delimited string (the empty string) yields the empty
sequence, while normalizing the explicit list yields a one-element
sequence. -/
theorem normalize_empty_value_counterexample :
    ¬ (normalizeValuesStr (joinComma [""]) = normalizeValuesList [""]) := by decide

/-- C8 witness: the instance named by the claim, at concrete input. -/
theorem normalize_order_independent_sorted_witness :
    normalizeValuesStr (joinComma ["2.2.2.2", "1.1.1.1"])
        = normalizeValuesList ["1.1.1.1", "2.2.2.2"] ∧
      List.Sorted pyStrLe (normalizeValuesList ["1.1.1.1", "2.2.2.2"]) :=
  normalize_order_independent_sorted ["2.2.2.2", "1.1.1.1"] ["1.1.1.1", "2.2.2.2"]
    (by decide) (by decide)

/-! The commit retry loop. -/

theorem commitLoop_all_transient (results : Nat → Except String Unit)
    (h : ∀ i, results i = Except.error "PriorRequestNotComplete") :
    ∀ r i, commitLoop results r i
      = CommitResult.raised "PriorRequestNotComplete" (i + r + 1) (i + r) := by
  intro r
  induction r with
  | zero =>
    intro i
    rw [commitLoop, h i]
    dsimp only
    rw [if_neg (by decide : ¬ ("PriorRequestNotComplete" ≠ "PriorRequestNotComplete"))]
    simp
  | succ r ih =>
    intro i
    rw [commitLoop, h i]
    dsimp only
    rw [if_neg (by decide : ¬ ("PriorRequestNotComplete" ≠ "PriorRequestNotComplete"))]
    rw [ih (i + 1)]
    rw [show i + 1 + r = i + (r + 1) from by omega]

/-- C1 (amended).  For a change batch whose every submission attempt raises
the transient PriorRequestNotComplete error, commit re-raises the error
after exactly 11 submission attempts total, having performed 10 backoff
sleeps: the loop starts with retry = 10, decrements before each attempt,
and only raises once the counter has gone negative, which admits one
initial attempt plus ten retries. -/
theorem commit_always_transient_eleven_attempts (results : Nat → Except String Unit)
    (h : ∀ i, results i = Except.error "PriorRequestNotComplete") :
    commitR53 results = CommitResult.raised "PriorRequestNotComplete" 11 10 :=
  commitLoop_all_transient results h 10 0

/-- C1 counterexample: on the all-transient provider, the claim that
commit fails after exactly 10 submission attempts total is false; the
outcome reports 11 attempts. -/
theorem commit_always_transient_not_ten_attempts :
    commitR53 (fun _ => Except.error "PriorRequestNotComplete")
        = CommitResult.raised "PriorRequestNotComplete" 11 10 ∧
      commitAttempts (commitR53 (fun _ => Except.error "PriorRequestNotComplete")) ≠ 10 := by
  constructor
  · decide
  · decide

/-- C1 witness: the amended theorem applied to the all-transient provider. -/
theorem commit_always_transient_eleven_attempts_witness :
    commitR53 (fun _ => Except.error "PriorRequestNotComplete")
      = CommitResult.raised "PriorRequestNotComplete" 11 10 :=
  commit_always_transient_eleven_attempts _ (fun _ => rfl)

theorem commitLoop_nontransient (results : Nat → Except String Unit) (code : String)
    (hc : code ≠ "PriorRequestNotComplete") :
    ∀ d i r, d ≤ r →
      (∀ j, i ≤ j → j < i + d → results j = Except.error "PriorRequestNotComplete") →
      results (i + d) = Except.error code →
      commitLoop results r i = CommitResult.raised code (i + d + 1) (i + d) := by
  intro d
  induction d with
  | zero =>
    intro i r _ _ hres
    rw [Nat.add_zero] at hres ⊢
    rw [commitLoop, hres]
    dsimp only
    rw [if_pos hc]
    simp
  | succ d ih =>
    intro i r hle hprev hres
    obtain ⟨r2, rfl⟩ : ∃ r2, r = r2 + 1 := ⟨r - 1, by omega⟩
    have h0 : results i = Except.error "PriorRequestNotComplete" :=
      hprev i (Nat.le_refl i) (by omega)
    rw [commitLoop, h0]
    dsimp only
    rw [if_neg (by decide : ¬ ("PriorRequestNotComplete" ≠ "PriorRequestNotComplete"))]
    have harg : i + 1 + d = i + (d + 1) := by omega
    have hres2 : results (i + 1 + d) = Except.error code := by rw [harg]; exact hres
    have hprev2 : ∀ j, i + 1 ≤ j → j < i + 1 + d →
        results j = Except.error "PriorRequestNotComplete" :=
      fun j hj1 hj2 => hprev j (by omega) (by omega)
    rw [ih (i + 1) r2 (by omega) hprev2 hres2, harg]

/-- C4 (confirmed).  If an attempt of commit raises a provider error whose
code is anything other than PriorRequestNotComplete, and every earlier
attempt (if any) raised the transient code, commit re-raises that error at
that very attempt: no error class other than the transient one is ever
retried.  At the first attempt (the case i = 0) commit fails immediately,
with zero backoff sleeps. -/
theorem commit_nontransient_raises_immediately (results : Nat → Except String Unit)
    (i : Nat) (code : String) (hle : i ≤ 10)
    (hprev : ∀ j, j < i → results j = Except.error "PriorRequestNotComplete")
    (hi : results i = Except.error code)
    (hcode : code ≠ "PriorRequestNotComplete") :
    commitR53 results = CommitResult.raised code (i + 1) i := by
  have h2 := commitLoop_nontransient results code hcode i 0 10 hle
    (fun j _ hj2 => hprev j (by omega)) (by rw [Nat.zero_add]; exact hi)
  simpa [commitR53] using h2

/-- C4 witness: a provider failing with a throttling error on the first
attempt makes commit raise at once, one attempt, zero sleeps. -/
theorem commit_nontransient_raises_immediately_witness :
    commitR53 (fun _ => Except.error "Throttling")
      = CommitResult.raised "Throttling" 1 0 :=
  commit_nontransient_raises_immediately (fun _ => Except.error "Throttling") 0 "Throttling"
    (by decide) (fun j hj => absurd hj (by omega)) rfl (by decide)

/-! The scan over the record sets of the zone. -/

theorem scanLoop_earlyExit (zone_in record_in type_in : String) (value_list : List String)
    (ttl_in : Nat) :
    ∀ (sets : List RSet) (acc : Option RecInfo) (rset : RSet), rset ∈ sets →
      rset.rtype = type_in → decodeName rset.name = record_in →
      value_list = sortStrings rset.resource_records →
      parseTTL rset.ttl = some ttl_in →
      scanLoop zone_in record_in type_in value_list ttl_in State.present sets acc
        = ScanResult.earlyExit := by
  intro sets
  induction sets with
  | nil => intro acc rset hmem; exact absurd hmem (List.not_mem_nil _)
  | cons hd rest ih =>
    intro acc rset hmem h1 h2 h3 h4
    rcases List.mem_cons.mp hmem with heq | hmem2
    · subst heq
      rw [scanLoop, if_pos ⟨h1, h2⟩, if_pos ⟨h3, h4, rfl⟩]
    · by_cases hmatch : hd.rtype = type_in ∧ decodeName hd.name = record_in
      · by_cases hexit : value_list = sortStrings hd.resource_records ∧
            parseTTL hd.ttl = some ttl_in ∧ State.present = State.present
        · rw [scanLoop, if_pos hmatch, if_pos hexit]
        · rw [scanLoop, if_pos hmatch, if_neg hexit]
          exact ih _ rset hmem2 h1 h2 h3 h4
      · rw [scanLoop, if_neg hmatch]
        exact ih acc rset hmem2 h1 h2 h3 h4

theorem scanLoop_finished_mem (zone_in record_in type_in : String) (value_list : List String)
    (ttl_in : Nat) (state_in : State) :
    ∀ (sets : List RSet) (acc : Option RecInfo) (r : RecInfo),
      scanLoop zone_in record_in type_in value_list ttl_in state_in sets acc
        = ScanResult.finished (some r) →
      acc = some r ∨ ∃ rset ∈ sets, rset.rtype = type_in ∧
        decodeName rset.name = record_in ∧ r = mkRecInfo zone_in rset := by
  intro sets
  induction sets with
  | nil =>
    intro acc r h
    rw [scanLoop] at h
    cases h
    left; rfl
  | cons hd rest ih =>
    intro acc r h
    rw [scanLoop] at h
    by_cases hmatch : hd.rtype = type_in ∧ decodeName hd.name = record_in
    · rw [if_pos hmatch] at h
      by_cases hexit : value_list = sortStrings hd.resource_records ∧
          parseTTL hd.ttl = some ttl_in ∧ state_in = State.present
      · rw [if_pos hexit] at h
        exact ScanResult.noConfusion h
      · rw [if_neg hexit] at h
        rcases ih _ r h with hacc | ⟨rset, hmem, hr1, hr2, hr3⟩
        · right
          refine ⟨hd, List.mem_cons_self _ _, hmatch.1, hmatch.2, ?_⟩
          injection hacc with e
          exact e.symm
        · right; exact ⟨rset, List.mem_cons_of_mem _ hmem, hr1, hr2, hr3⟩
    · rw [if_neg hmatch] at h
      rcases ih acc r h with hacc | ⟨rset, hmem, hr1, hr2, hr3⟩
      · left; exact hacc
      · right; exact ⟨rset, List.mem_cons_of_mem _ hmem, hr1, hr2, hr3⟩

theorem scanLoop_noMatch (zone_in record_in type_in : String) (value_list : List String)
    (ttl_in : Nat) (state_in : State) :
    ∀ (l : List RSet) (acc : Option RecInfo),
      (∀ x ∈ l, ¬ (x.rtype = type_in ∧ decodeName x.name = record_in)) →
      scanLoop zone_in record_in type_in value_list ttl_in state_in l acc
        = ScanResult.finished acc := by
  intro l
  induction l with
  | nil => intro acc _; rw [scanLoop]
  | cons hd rest ih =>
    intro acc h
    rw [scanLoop, if_neg (h hd (List.mem_cons_self _ _))]
    exact ih acc (fun x m => h x (List.mem_cons_of_mem _ m))

theorem scanLoop_slist_last (zone_in record_in type_in : String) (value_list : List String)
    (ttl_in : Nat) (rset : RSet) (l₂ : List RSet)
    (h1 : rset.rtype = type_in) (h2 : decodeName rset.name = record_in)
    (hafter : ∀ x ∈ l₂, ¬ (x.rtype = type_in ∧ decodeName x.name = record_in)) :
    ∀ (l₁ : List RSet) (acc : Option RecInfo),
      scanLoop zone_in record_in type_in value_list ttl_in State.slist (l₁ ++ rset :: l₂) acc
        = ScanResult.finished (some (mkRecInfo zone_in rset)) := by
  intro l₁
  induction l₁ with
  | nil =>
    intro acc
    rw [List.nil_append, scanLoop, if_pos ⟨h1, h2⟩,
      if_neg (fun hcon => State.noConfusion hcon.2.2)]
    exact scanLoop_noMatch _ _ _ _ _ _ l₂ _ hafter
  | cons hd l₁ ih =>
    intro acc
    rw [List.cons_append, scanLoop]
    by_cases hmatch : hd.rtype = type_in ∧ decodeName hd.name = record_in
    · rw [if_pos hmatch, if_neg (fun hcon => State.noConfusion hcon.2.2)]
      exact ih _
    · rw [if_neg hmatch]
      exact ih acc

/-- C2 (confirmed).  For a desired record with intent present, when some
existing record set of the zone listing matches the desired name and type
and carries the same value set up to ordering and the same TTL (the
provider TTL string compared as an integer against the desired integer
TTL), the run exits with changed=false; the Outcome.noChange constructor
is produced inside the scan, before any change batch exists, so no network
mutation is issued. -/
theorem present_identical_record_noop (zone_in : String) (ttl_in : Nat)
    (record_raw ty : String) (value_in : PyValue) (overwrite : Option Bool)
    (sets : List RSet) (rset : RSet) (hmem : rset ∈ sets)
    (h1 : rset.rtype = ty) (h2 : decodeName rset.name = fqdn record_raw)
    (h3 : valueList value_in = sortStrings rset.resource_records)
    (h4 : parseTTL rset.ttl = some ttl_in)
    (hv : pyFalsy value_in = false) :
    recordOp State.present zone_in ttl_in record_raw (some ty) value_in overwrite sets
      = Outcome.noChange := by
  simp only [recordOp]
  rw [if_neg (by simp [hv]),
    scanLoop_earlyExit zone_in (fqdn record_raw) ty (valueList value_in) ttl_in sets none
      rset hmem h1 h2 h3 h4]
  rfl

/-- C2 witness: an existing A record with the same sorted values and the
same integer TTL as the desired comma-delimited values makes the run a
no-op. -/
theorem present_identical_record_noop_witness :
    recordOp State.present "foo.com." 7200 "new.foo.com" (some "A")
        (PyValue.pstr "2.2.2.2,1.1.1.1") none
        [⟨"new.foo.com.", "A", "7200", ["1.1.1.1", "2.2.2.2"]⟩]
      = Outcome.noChange :=
  present_identical_record_noop "foo.com." 7200 "new.foo.com" "A"
    (PyValue.pstr "2.2.2.2,1.1.1.1") none
    [⟨"new.foo.com.", "A", "7200", ["1.1.1.1", "2.2.2.2"]⟩]
    ⟨"new.foo.com.", "A", "7200", ["1.1.1.1", "2.2.2.2"]⟩
    (by decide) rfl (by decide) (by decide) (by decide) rfl

/-- C3 (confirmed).  For a desired record with intent present, a matched
existing record set that differs (the scan finished having found a match
without taking the fully-equal early exit) and overwrite true, the built
change batch is the two-entry list whose first entry is a Delete carrying
the matched existing record TTL string and value list, and whose second
entry is the Create carrying the desired TTL and normalized desired
values; moreover the matched record data comes from a record set of the
listing that matches the desired name and type. -/
theorem present_overwrite_delete_existing_then_create (zone_in : String) (ttl_in : Nat)
    (record_raw ty : String) (value_in : PyValue) (sets : List RSet) (r : RecInfo)
    (hv : pyFalsy value_in = false)
    (hscan : scanLoop zone_in (fqdn record_raw) ty (valueList value_in) ttl_in
        State.present sets none = ScanResult.finished (some r)) :
    recordOp State.present zone_in ttl_in record_raw (some ty) value_in (some true) sets
      = Outcome.commitChanges
          [ { op := ChangeOp.delete, name := fqdn record_raw, rtype := ty,
              ttl := r.ttl, values := r.values },
            { op := ChangeOp.create, name := fqdn record_raw, rtype := ty,
              ttl := toString ttl_in, values := valueList value_in } ] ∧
      ∃ rset ∈ sets, rset.rtype = ty ∧ decodeName rset.name = fqdn record_raw ∧
        r.ttl = rset.ttl ∧ r.values = sortStrings rset.resource_records := by
  constructor
  · simp only [recordOp]
    rw [if_neg (by simp [hv]), hscan]
    rfl
  · rcases scanLoop_finished_mem zone_in (fqdn record_raw) ty (valueList value_in) ttl_in
        State.present sets none r hscan with hacc | ⟨rset, hmem, hr1, hr2, hr3⟩
    · exact absurd hacc (by simp)
    · refine ⟨rset, hmem, hr1, hr2, ?_, ?_⟩
      · rw [hr3]; rfl
      · rw [hr3]; rfl

/-- C3 witness: overwriting a differing A record deletes with the existing
TTL and values, then creates with the desired ones, in that order. -/
theorem present_overwrite_delete_existing_then_create_witness :
    recordOp State.present "foo.com." 7200 "new.foo.com" (some "A")
        (PyValue.pstr "9.9.9.9") (some true) [⟨"new.foo.com.", "A", "3600", ["1.1.1.1"]⟩]
      = Outcome.commitChanges
          [ { op := ChangeOp.delete, name := fqdn "new.foo.com", rtype := "A",
              ttl := (mkRecInfo "foo.com." ⟨"new.foo.com.", "A", "3600", ["1.1.1.1"]⟩).ttl,
              values := (mkRecInfo "foo.com." ⟨"new.foo.com.", "A", "3600", ["1.1.1.1"]⟩).values },
            { op := ChangeOp.create, name := fqdn "new.foo.com", rtype := "A",
              ttl := toString 7200, values := valueList (PyValue.pstr "9.9.9.9") } ] ∧
      ∃ rset ∈ ([⟨"new.foo.com.", "A", "3600", ["1.1.1.1"]⟩] : List RSet),
        rset.rtype = "A" ∧ decodeName rset.name = fqdn "new.foo.com" ∧
        (mkRecInfo "foo.com." ⟨"new.foo.com.", "A", "3600", ["1.1.1.1"]⟩).ttl = rset.ttl ∧
        (mkRecInfo "foo.com." ⟨"new.foo.com.", "A", "3600", ["1.1.1.1"]⟩).values
          = sortStrings rset.resource_records :=
  present_overwrite_delete_existing_then_create "foo.com." 7200 "new.foo.com" "A"
    (PyValue.pstr "9.9.9.9") [⟨"new.foo.com.", "A", "3600", ["1.1.1.1"]⟩]
    (mkRecInfo "foo.com." ⟨"new.foo.com.", "A", "3600", ["1.1.1.1"]⟩) rfl (by decide)

theorem present_found_no_overwrite_conflict (zone_in : String) (ttl_in : Nat)
    (record_raw ty : String) (value_in : PyValue) (overwrite : Option Bool)
    (sets : List RSet) (r : RecInfo)
    (hv : pyFalsy value_in = false) (how : pyTruthy overwrite = false)
    (hscan : scanLoop zone_in (fqdn record_raw) ty (valueList value_in) ttl_in
        State.present sets none = ScanResult.finished (some r)) :
    recordOp State.present zone_in ttl_in record_raw (some ty) value_in overwrite sets
      = Outcome.failMsg conflictMsg := by
  simp only [recordOp]
  rw [if_neg (by simp [hv]), hscan]
  simp [buildOutcome, how]

/-- C5 (confirmed).  For a desired record with intent present, a matched
existing record set that differs (the scan finished with a found match
instead of taking the fully-equal early exit), and overwrite false, the
run ends in the fatal conflict failure carrying the record-already-exists
message; the Outcome.failMsg constructor is produced by the overwrite
check before any commit, so no change batch is submitted. -/
theorem present_conflict_without_overwrite (zone_in : String) (ttl_in : Nat)
    (record_raw ty : String) (value_in : PyValue) (sets : List RSet) (r : RecInfo)
    (hv : pyFalsy value_in = false)
    (hscan : scanLoop zone_in (fqdn record_raw) ty (valueList value_in) ttl_in
        State.present sets none = ScanResult.finished (some r)) :
    recordOp State.present zone_in ttl_in record_raw (some ty) value_in (some false) sets
      = Outcome.failMsg conflictMsg :=
  present_found_no_overwrite_conflict zone_in ttl_in record_raw ty value_in (some false)
    sets r hv rfl hscan

/-- C5 witness: a differing existing record with overwrite false fails
with the conflict message. -/
theorem present_conflict_without_overwrite_witness :
    recordOp State.present "foo.com." 7200 "new.foo.com" (some "A") (PyValue.pstr "9.9.9.9")
        (some false) [⟨"new.foo.com.", "A", "3600", ["1.1.1.1"]⟩]
      = Outcome.failMsg conflictMsg :=
  present_conflict_without_overwrite "foo.com." 7200 "new.foo.com" "A"
    (PyValue.pstr "9.9.9.9") [⟨"new.foo.com.", "A", "3600", ["1.1.1.1"]⟩]
    (mkRecInfo "foo.com." ⟨"new.foo.com.", "A", "3600", ["1.1.1.1"]⟩) rfl (by decide)

/-- C10 (confirmed).  When the overwrite parameter is omitted (None, its
default), a desired record with intent present and a differing matched
existing record set is treated exactly as with overwrite false: the run
fails with the conflict message, and the outcome with overwrite omitted
equals the outcome with overwrite false, because the check in the source
is Python falsiness of the parameter and None and False are both falsy. -/
theorem overwrite_none_behaves_as_false (zone_in : String) (ttl_in : Nat)
    (record_raw ty : String) (value_in : PyValue) (sets : List RSet) (r : RecInfo)
    (hv : pyFalsy value_in = false)
    (hscan : scanLoop zone_in (fqdn record_raw) ty (valueList value_in) ttl_in
        State.present sets none = ScanResult.finished (some r)) :
    recordOp State.present zone_in ttl_in record_raw (some ty) value_in none sets
        = Outcome.failMsg conflictMsg ∧
      recordOp State.present zone_in ttl_in record_raw (some ty) value_in none sets
        = recordOp State.present zone_in ttl_in record_raw (some ty) value_in (some false) sets := by
  have ha := present_found_no_overwrite_conflict zone_in ttl_in record_raw ty value_in none
    sets r hv rfl hscan
  have hb := present_found_no_overwrite_conflict zone_in ttl_in record_raw ty value_in
    (some false) sets r hv rfl hscan
  exact ⟨ha, ha.trans hb.symm⟩

/-- C10 witness: with overwrite omitted, the differing-record present run
fails with the conflict message, same as with overwrite false. -/
theorem overwrite_none_behaves_as_false_witness :
    recordOp State.present "foo.com." 7200 "new.foo.com" (some "A") (PyValue.pstr "9.9.9.9")
        none [⟨"new.foo.com.", "A", "3600", ["1.1.1.1"]⟩]
        = Outcome.failMsg conflictMsg ∧
      recordOp State.present "foo.com." 7200 "new.foo.com" (some "A") (PyValue.pstr "9.9.9.9")
          none [⟨"new.foo.com.", "A", "3600", ["1.1.1.1"]⟩]
        = recordOp State.present "foo.com." 7200 "new.foo.com" (some "A")
            (PyValue.pstr "9.9.9.9") (some false) [⟨"new.foo.com.", "A", "3600", ["1.1.1.1"]⟩] :=
  overwrite_none_behaves_as_false "foo.com." 7200 "new.foo.com" "A"
    (PyValue.pstr "9.9.9.9") [⟨"new.foo.com.", "A", "3600", ["1.1.1.1"]⟩]
    (mkRecInfo "foo.com." ⟨"new.foo.com.", "A", "3600", ["1.1.1.1"]⟩) rfl (by decide)

/-- C6 (confirmed).  For a desired record with intent absent and a matched
existing record set, the built change batch is a single Delete entry whose
TTL is the caller-supplied desired TTL and whose values are the
caller-supplied desired values (normalized by the module by the usual
sort), not the freshly fetched existing ones: the batch is built from
ttl_in and value_list, ignoring the matched record data. -/
theorem absent_delete_uses_desired_values_ttl (zone_in : String) (ttl_in : Nat)
    (record_raw ty : String) (value_in : PyValue) (overwrite : Option Bool)
    (sets : List RSet) (r : RecInfo) (hv : pyFalsy value_in = false)
    (hscan : scanLoop zone_in (fqdn record_raw) ty (valueList value_in) ttl_in
        State.absent sets none = ScanResult.finished (some r)) :
    recordOp State.absent zone_in ttl_in record_raw (some ty) value_in overwrite sets
      = Outcome.commitChanges
          [ { op := ChangeOp.delete, name := fqdn record_raw, rtype := ty,
              ttl := toString ttl_in, values := valueList value_in } ] := by
  simp only [recordOp]
  rw [if_neg (by simp [hv]), hscan]
  rfl

/-- C6 witness: deleting a found record uses the desired TTL 7200 and
desired value, not the stored TTL 3600 and stored value. -/
theorem absent_delete_uses_desired_values_ttl_witness :
    recordOp State.absent "foo.com." 7200 "new.foo.com" (some "A") (PyValue.pstr "9.9.9.9")
        none [⟨"new.foo.com.", "A", "3600", ["1.1.1.1"]⟩]
      = Outcome.commitChanges
          [ { op := ChangeOp.delete, name := fqdn "new.foo.com", rtype := "A",
              ttl := toString 7200, values := valueList (PyValue.pstr "9.9.9.9") } ] :=
  absent_delete_uses_desired_values_ttl "foo.com." 7200 "new.foo.com" "A"
    (PyValue.pstr "9.9.9.9") none [⟨"new.foo.com.", "A", "3600", ["1.1.1.1"]⟩]
    (mkRecInfo "foo.com." ⟨"new.foo.com.", "A", "3600", ["1.1.1.1"]⟩) rfl (by decide)

/-- C7 (amended).  The scan over the zone listing keeps the record dict of
the LAST record set (in listing order) whose decoded name and type equal
the desired pair, because the loop has no break and later matches
overwrite the dict; with intent list the run reports exactly that record
dict.  The claim as stated (first match) fails, see the counterexample. -/
theorem matcher_returns_last_match (zone_in : String) (ttl_in : Nat)
    (record_raw ty : String) (value_in : PyValue) (overwrite : Option Bool)
    (l₁ l₂ : List RSet) (rset : RSet)
    (h1 : rset.rtype = ty) (h2 : decodeName rset.name = fqdn record_raw)
    (hafter : ∀ x ∈ l₂, ¬ (x.rtype = ty ∧ decodeName x.name = fqdn record_raw)) :
    recordOp State.slist zone_in ttl_in record_raw (some ty) value_in overwrite
        (l₁ ++ rset :: l₂)
      = Outcome.listSet (some (mkRecInfo zone_in rset)) := by
  simp only [recordOp]
  rw [if_neg (fun hcon => by rcases hcon.1 with h | h <;> exact State.noConfusion h),
    scanLoop_slist_last zone_in (fqdn record_raw) ty (valueList value_in) ttl_in
      rset l₂ h1 h2 hafter l₁ none]
  rfl

/-- C7 counterexample: with two record sets both matching the desired name
and type, the list run reports the second (TTL 200, value 2.2.2.2), not
the first (TTL 100, value 1.1.1.1), refuting the first-match claim. -/
theorem matcher_returns_last_not_first :
    recordOp State.slist "foo.com." 3600 "a.foo.com" (some "A") (PyValue.pstr "9.9.9.9") none
        [⟨"a.foo.com.", "A", "100", ["1.1.1.1"]⟩, ⟨"a.foo.com.", "A", "200", ["2.2.2.2"]⟩]
        = Outcome.listSet (some ⟨"foo.com.", "A", "a.foo.com.", "200", "2.2.2.2", ["2.2.2.2"]⟩) ∧
      ¬ (recordOp State.slist "foo.com." 3600 "a.foo.com" (some "A") (PyValue.pstr "9.9.9.9") none
        [⟨"a.foo.com.", "A", "100", ["1.1.1.1"]⟩, ⟨"a.foo.com.", "A", "200", ["2.2.2.2"]⟩]
        = Outcome.listSet (some ⟨"foo.com.", "A", "a.foo.com.", "100", "1.1.1.1", ["1.1.1.1"]⟩)) := by
  constructor
  · decide
  · decide

/-- C7 witness: the amended last-match theorem at the two-element listing. -/
theorem matcher_returns_last_match_witness :
    recordOp State.slist "foo.com." 3600 "a.foo.com" (some "A") (PyValue.pstr "9.9.9.9") none
        ([⟨"a.foo.com.", "A", "100", ["1.1.1.1"]⟩] ++ ⟨"a.foo.com.", "A", "200", ["2.2.2.2"]⟩ :: [])
      = Outcome.listSet (some (mkRecInfo "foo.com." ⟨"a.foo.com.", "A", "200", ["2.2.2.2"]⟩)) :=
  matcher_returns_last_match "foo.com." 3600 "a.foo.com" "A" (PyValue.pstr "9.9.9.9") none
    [⟨"a.foo.com.", "A", "100", ["1.1.1.1"]⟩] [] ⟨"a.foo.com.", "A", "200", ["2.2.2.2"]⟩
    rfl (by decide) (fun x hx => absurd hx (List.not_mem_nil _))

/-! The hosted-zone directory keeps the last listing entry per name. -/

theorem zoneDirectory_append_singleton (l : List HostedZone) (z : HostedZone) :
    zoneDirectory (l ++ [z]) = zoneUpdate (zoneDirectory l) z := by
  unfold zoneDirectory
  rw [List.foldl_append]
  rfl

/-- C9 (confirmed).  The name-to-id map built from the hosted-zone listing
keeps, for each name, only the processed provider id of the LAST zone with
that name in listing order: looking up any name in the zones dict equals
taking the last listing entry with that name (the first of the reversed
listing) and stripping the hostedzone path prefix from its id.  In
particular, with two or more zones of the same name, resolution uses the
last one. -/
theorem zone_map_last_listing_wins (l : List HostedZone) (nm : String) :
    zoneDirectory l nm
      = (l.reverse.find? (fun z => z.name == nm)).map
          (fun z => pyReplace z.id "/hostedzone/" "") := by
  induction l using List.reverseRecOn with
  | nil => rfl
  | append_singleton l z ih =>
    rw [zoneDirectory_append_singleton, List.reverse_append]
    simp only [List.reverse_cons, List.reverse_nil, List.nil_append, List.singleton_append]
    by_cases h : (z.name == nm) = true
    · have h2 : nm = z.name := (beq_iff_eq.mp h).symm
      simp only [List.find?, h]
      simp [zoneUpdate, h2]
    · have h2 : ¬ (nm = z.name) := fun e => h (beq_iff_eq.mpr e.symm)
      have h3 : (z.name == nm) = false := by
        cases hb : (z.name == nm)
        · rfl
        · exact absurd hb h
      simp only [List.find?, h3]
      simp only [zoneUpdate, if_neg h2]
      exact ih

end Route53
